import Mathlib

/-!
Verification of the client-side local-mirror synchronizer of the
pingpong-matching web application.

The embedding follows the main page component (the file holding
`fetchMessages`, `openChat`, `handleSendMessage`, `fetchMatches`,
`fetchNextSlotsForUsers`, `hasOverlap`, `canRespond` / `respondMatch` and the
matches realtime channel handler).  Row shapes come from the generated
database types (`types/supabase.ts`).

Modelling conventions:
* ISO-8601 timestamp strings are abstracted to `Nat`, preserving their order
  under `localeCompare`; a `null` timestamp becomes `none` and the source's
  `x ?? ""` fallback becomes `Option.getD x 0` (the empty string is the
  `localeCompare`-least string, `0` the least `Nat`).
* `String(id)` (the string key stored in the `messageIdsRef` seen-set) is
  modelled by `Nat.repr`.
* A supabase response `{ data, error }` is modelled by an `error : Bool`
  flag together with `data : Option _`; the source's `if (!error && data)`
  test becomes a match on the pair.
* JavaScript's `Array.prototype.sort` with the comparator
  `(a, b) => (a.start_at ?? "").localeCompare(b.start_at ?? "")` is modelled
  by `List.insertionSort` over the corresponding key order.
-/

/-! ### Row types (from the generated supabase table types) -/

/-- A row of the `messages` table.  The column `id` is kept optional because
the realtime payload is cast from an untyped event and the source guards
every use of `row.id` with a `!= null` check. -/
structure MessageRow where
  id : Option Nat
  match_id : Option Nat
  sender_id : Option String
  body : String
  sent_at : Option Nat
deriving DecidableEq

/-- A row of the `matches` table (`id` is a non-null generated integer). -/
structure MatchRow where
  id : Nat
  user_a : Option String
  user_b : Option String
  start_at : Option Nat
  end_at : Option Nat
  venue_text : Option String
  status : Option String
deriving DecidableEq

/-- A row of the `availability_slots` query issued by
`fetchNextSlotsForUsers` (only the selected columns). -/
structure SlotQueryRow where
  user_id : Option String
  start_at : Nat
  end_at : Nat
  area_code : Option String
  venue_hint : Option String
deriving DecidableEq

/-- The `PublicSlot` value stored in `nextSlotMap`. -/
structure PublicSlot where
  user_id : String
  start_at : Nat
  end_at : Nat
  area_code : Option String
  venue_hint : Option String
deriving DecidableEq

/-! ### Sort keys and the modelled `Array.prototype.sort` -/

/-- Sort key of a message: `sent_at`, with `null` below every timestamp. -/
def msgKey (m : MessageRow) : Nat := m.sent_at.getD 0

/-- Sort key of a match: `start_at ?? ""`. -/
def matchKey (m : MatchRow) : Nat := m.start_at.getD 0

/-- The comparator `(a.start_at ?? "").localeCompare(b.start_at ?? "")`. -/
def matchLe (a b : MatchRow) : Prop := matchKey a ≤ matchKey b

/-- Message order by `sent_at` (the `order("sent_at", ascending)` clause). -/
def msgLe (a b : MessageRow) : Prop := msgKey a ≤ msgKey b

/-- Slot order by `start_at` (the `order("start_at", ascending)` clause). -/
def slotLe (a b : SlotQueryRow) : Prop := a.start_at ≤ b.start_at

instance : DecidableRel matchLe := fun a b => Nat.decLe (matchKey a) (matchKey b)
instance : DecidableRel msgLe := fun a b => Nat.decLe (msgKey a) (msgKey b)
instance : DecidableRel slotLe := fun a b => Nat.decLe a.start_at b.start_at

instance : IsTotal MatchRow matchLe := ⟨fun _ _ => Nat.le_total _ _⟩
instance : IsTrans MatchRow matchLe := ⟨fun _ _ _ => Nat.le_trans⟩
instance : IsTotal MessageRow msgLe := ⟨fun _ _ => Nat.le_total _ _⟩
instance : IsTrans MessageRow msgLe := ⟨fun _ _ _ => Nat.le_trans⟩
instance : IsTotal SlotQueryRow slotLe := ⟨fun _ _ => Nat.le_total _ _⟩
instance : IsTrans SlotQueryRow slotLe := ⟨fun _ _ _ => Nat.le_trans⟩

/-- `next.sort((a, b) => (a.start_at ?? "").localeCompare(b.start_at ?? ""))`. -/
def sortByStart (l : List MatchRow) : List MatchRow := List.insertionSort matchLe l

/-! ### Chat synchronizer state and operations -/

/-- The chat-side mirror: the `messages` state plus the `messageIdsRef`
seen-set (a `Set<string>` of `String(id)` keys, modelled as a
membership-deduplicated list). -/
structure ChatState where
  messages : List MessageRow
  seen : List String
deriving DecidableEq

/-- `Set.add`: insert a key unless it is already present. -/
def addSeen (s : List String) (x : String) : List String :=
  if x ∈ s then s else s ++ [x]

/-- One iteration of the seen-set rebuild in `fetchMessages`:
`if (m.id != null) ids.add(String(m.id))`. -/
def seenStep (acc : List String) (m : MessageRow) : List String :=
  match m.id with
  | some i => addSeen acc (Nat.repr i)
  | none => acc

/-- The seen-set rebuilt by `fetchMessages`:
`for (const m of data) if (m.id != null) ids.add(String(m.id))`. -/
def buildSeen (rows : List MessageRow) : List String :=
  rows.foldl seenStep []

/-- `fetchMessages`: on success (`!error && data`) replace `messages` with the
snapshot and rebuild the seen-set; otherwise leave the state untouched. -/
def fetchMessagesRun (s : ChatState) (error : Bool)
    (data : Option (List MessageRow)) : ChatState :=
  match error, data with
  | false, some rows => { messages := rows, seen := buildSeen rows }
  | _, _ => s

/-- The server side of the `messages` fetch: rows of the open match, ordered
ascending by `sent_at`. -/
def fetchMessagesQuery (db : List MessageRow) (matchId : Nat) : List MessageRow :=
  List.insertionSort msgLe (db.filter (fun m => m.match_id == some matchId))

/-- The realtime INSERT callback installed by `openChat`:
if the payload has a row, append it unless its id is a non-null member of the
seen-set; a non-null id is recorded as seen. -/
def chatInsertCallback (s : ChatState) (payloadNew : Option MessageRow) : ChatState :=
  match payloadNew with
  | none => s
  | some row =>
    match row.id with
    | none => { s with messages := s.messages ++ [row] }
    | some i =>
      if Nat.repr i ∈ s.seen then s
      else { messages := s.messages ++ [row], seen := addSeen s.seen (Nat.repr i) }

/-- The post-write continuation of `handleSendMessage`: on a successful insert
response, record the returned row's id as seen (when non-null) and append the
row to `messages` (unconditionally). -/
def handleSendMessageApply (s : ChatState) (error : Bool)
    (data : Option MessageRow) : ChatState :=
  match error, data with
  | false, some row =>
    { messages := s.messages ++ [row]
      seen :=
        match row.id with
        | some i => addSeen s.seen (Nat.repr i)
        | none => s.seen }
  | _, _ => s

/-- Multiplicity of a message id in the visible sequence. -/
def countId (l : List MessageRow) (i : Nat) : Nat :=
  l.countP (fun m => m.id == some i)

/-! ### Matches mirror operations -/

/-- `row.user_a === user.id || row.user_b === user.id`. -/
def involvesB (uid : String) (m : MatchRow) : Bool :=
  m.user_a == some uid || m.user_b == some uid

/-- The server side of `fetchMatches`: rows with
`or(user_a.eq.uid, user_b.eq.uid)`, ordered ascending by `start_at`. -/
def fetchMatchesQuery (uid : String) (db : List MatchRow) : List MatchRow :=
  sortByStart (db.filter (fun m => involvesB uid m))

/-- `fetchMatches`: on success replace the `matches` state, otherwise leave it
untouched. -/
def fetchMatchesRun (s : List MatchRow) (error : Bool)
    (data : Option (List MatchRow)) : List MatchRow :=
  match error, data with
  | false, some rows => rows
  | _, _ => s

/-- The `eventType` of a realtime `postgres_changes` payload. -/
inductive MatchEvent where
  | INSERT
  | UPDATE
  | DELETE
deriving DecidableEq

/-- A realtime payload for the `matches` channel. -/
structure MatchPayload where
  eventType : MatchEvent
  new : Option MatchRow
  old : Option MatchRow
deriving DecidableEq

/-- The matches realtime channel handler: take `row = payload.new ?? payload.old`,
drop the event when `row` is null or does not involve the current user,
otherwise apply the INSERT / UPDATE / DELETE mutation and re-sort by
`start_at`. -/
def matchesRealtime (uid : String) (p : MatchPayload) (prev : List MatchRow) :
    List MatchRow :=
  match p.new.orElse (fun _ => p.old) with
  | none => prev
  | some row =>
    if involvesB uid row then
      sortByStart
        (match p.eventType, p.new, p.old with
        | .INSERT, some rowNew, _ =>
          if prev.any (fun m => m.id == rowNew.id) then prev else prev ++ [rowNew]
        | .UPDATE, some rowNew, _ =>
          prev.map (fun m => if m.id == rowNew.id then rowNew else m)
        | .DELETE, _, some rowOld =>
          prev.filter (fun m => m.id != rowOld.id)
        | _, _, _ => prev)
    else prev

/-- The post-insert continuation of `handleProposeMatch`: append the inserted
row and re-sort by `start_at`. -/
def proposeApply (prev : List MatchRow) (error : Bool)
    (data : Option MatchRow) : List MatchRow :=
  match error, data with
  | false, some row => sortByStart (prev ++ [row])
  | _, _ => prev

/-- The post-update continuation of `handleMatchStatus`: replace the row with
the matching id in place. -/
def matchStatusApply (prev : List MatchRow) (matchId : Nat) (error : Bool)
    (data : Option MatchRow) : List MatchRow :=
  match error, data with
  | false, some row => prev.map (fun m => if m.id == matchId then row else m)
  | _, _ => prev

/-- `isReceiver`: `!!me && m.user_b === me`. -/
def isReceiver (me : Option String) (m : MatchRow) : Bool :=
  match me with
  | none => false
  | some u => m.user_b == some u

/-- `canRespond`: the acting user is the receiver and the match is pending. -/
def canRespond (me : Option String) (m : MatchRow) : Bool :=
  isReceiver me m && m.status == some "pending"

/-- The two responses offered by the UI. -/
inductive RespondKind where
  | confirmed
  | cancelled
deriving DecidableEq

/-- The status string written by each response. -/
def RespondKind.toStatus : RespondKind → String
  | .confirmed => "confirmed"
  | .cancelled => "cancelled"

/-- `respondMatch`: issue the status update `(m.id, next)` when `canRespond`
holds, otherwise issue nothing (the source shows an error toast instead). -/
def respondMatch (me : Option String) (m : MatchRow) (next : RespondKind) :
    Option (Nat × String) :=
  if canRespond me m then some (m.id, next.toStatus) else none

/-! ### `fetchNextSlotsForUsers` -/

/-- The `nextSlotMap` object: `none` means the key is absent, `some none`
means the key is bound to `null`, `some (some s)` means it is bound to a
slot.  The source's `map[uid] == null` test is true in the first two cases. -/
def NextSlotMap : Type := String → Option (Option PublicSlot)

/-- The `PublicSlot` built from a fetched row inside the loop. -/
def toPublicSlot (uid : String) (r : SlotQueryRow) : PublicSlot :=
  ⟨uid, r.start_at, r.end_at, r.area_code, r.venue_hint⟩

/-- `Object.fromEntries(userIds.map(id => [id, null]))`. -/
def initSlotMap (userIds : List String) : NextSlotMap :=
  fun id => if id ∈ userIds then some none else none

/-- One iteration of the `for (const row of rows)` loop:
skip a falsy `user_id` (null or the empty string), otherwise bind the first
row seen for that user (`if (map[uid] == null)`). -/
def slotMapStep (m : NextSlotMap) (r : SlotQueryRow) : NextSlotMap :=
  match r.user_id with
  | none => m
  | some uid =>
    if uid = "" then m
    else
      match m uid with
      | some (some _) => m
      | _ => fun x => if x = uid then some (some (toPublicSlot uid r)) else m x

/-- `fetchNextSlotsForUsers` applied to the fetched, `start_at`-ascending row
list. -/
def fetchNextSlotsForUsers (userIds : List String) (rows : List SlotQueryRow) :
    NextSlotMap :=
  rows.foldl slotMapStep (initSlotMap userIds)

/-! ### `hasOverlap` -/

/-- `hasOverlap`, parameterized by the `new Date(s).getTime()` parse
function: `[aStart, aEnd)` and `[bStart, bEnd)` overlap when
`aStart < bEnd && bStart < aEnd` on parsed times. -/
def hasOverlap (getTime : String → Int)
    (aStart aEnd bStart bEnd : String) : Bool :=
  decide (getTime aStart < getTime bEnd) && decide (getTime bStart < getTime aEnd)

/-! ### Concrete fixtures used by counterexamples and witnesses -/

/-- A message row with id 1 (the local write of claim C1). -/
def msgFix1 : MessageRow := ⟨some 1, some 7, some "u", "hi", some 10⟩

/-- A message row with id 1 and sort key 20. -/
def msgFixA : MessageRow := ⟨some 1, some 7, some "u", "a", some 20⟩

/-- A message row with id 2 and the smaller sort key 10. -/
def msgFixB : MessageRow := ⟨some 2, some 7, some "v", "b", some 10⟩

/-- A realtime message payload whose row lacks an id. -/
def msgFixNoId : MessageRow := ⟨none, some 7, some "u", "x", some 5⟩

/-- A pending match between users `"u"` (proposer) and `"v"` (receiver). -/
def matchFix1 : MatchRow := ⟨1, some "u", some "v", some 10, some 20, none, some "pending"⟩

/-- A second match involving user `"u"`, with the later start key 30. -/
def matchFix2 : MatchRow := ⟨2, some "w", some "u", some 30, some 40, none, some "confirmed"⟩

/-- An availability slot of user `"a"`. -/
def slotFixA : SlotQueryRow := ⟨some "a", 3, 9, none, none⟩

/-- A later availability slot of user `"a"`. -/
def slotFixB : SlotQueryRow := ⟨some "a", 5, 7, none, none⟩

/-- An availability slot whose `user_id` is the empty string. -/
def slotFixEmpty : SlotQueryRow := ⟨some "", 5, 6, none, none⟩

/-! ### Helper lemmas -/

/-- Appending an element that is `r`-above the whole list keeps it sorted. -/
theorem sorted_append_one {α : Type} {r : α → α → Prop} {l : List α} {x : α}
    (hl : List.Sorted r l) (hx : ∀ a ∈ l, r a x) : List.Sorted r (l ++ [x]) := by
  rw [List.Sorted, List.pairwise_append]
  refine ⟨hl, List.pairwise_singleton _ _, fun a ha b hb => ?_⟩
  rw [List.mem_singleton] at hb
  subst hb
  exact hx a ha

/-- Membership in `Set.add`. -/
theorem mem_addSeen {s : List String} {x y : String} :
    y ∈ addSeen s x ↔ y ∈ s ∨ y = x := by
  by_cases h : x ∈ s
  · simp only [addSeen, if_pos h]
    constructor
    · exact Or.inl
    · intro hy
      cases hy with
      | inl hy => exact hy
      | inr hy => exact hy ▸ h
  · simp [addSeen, if_neg h]

/-- Membership in the folded seen-set built over `seenStep`. -/
theorem mem_seenStep_foldl (rows : List MessageRow) (acc : List String) (x : String) :
    x ∈ rows.foldl seenStep acc ↔
      x ∈ acc ∨ ∃ m ∈ rows, ∃ i, m.id = some i ∧ x = Nat.repr i := by
  induction rows generalizing acc with
  | nil => simp
  | cons m t ih =>
    rw [List.foldl_cons, ih]
    cases hm : m.id with
    | none =>
      have hstep : seenStep acc m = acc := by simp [seenStep, hm]
      rw [hstep]
      constructor
      · intro h
        cases h with
        | inl h => exact Or.inl h
        | inr h =>
          obtain ⟨m', hm', hi⟩ := h
          exact Or.inr ⟨m', List.mem_cons_of_mem _ hm', hi⟩
      · intro h
        cases h with
        | inl h => exact Or.inl h
        | inr h =>
          obtain ⟨m', hm', i, hi, hx⟩ := h
          cases List.mem_cons.mp hm' with
          | inl hm' => rw [hm', hm] at hi; cases hi
          | inr hm' => exact Or.inr ⟨m', hm', i, hi, hx⟩
    | some i =>
      have hstep : seenStep acc m = addSeen acc (Nat.repr i) := by simp [seenStep, hm]
      rw [hstep]
      constructor
      · intro h
        cases h with
        | inl h =>
          cases mem_addSeen.mp h with
          | inl hy => exact Or.inl hy
          | inr hy => exact Or.inr ⟨m, List.mem_cons_self _ _, i, hm, hy⟩
        | inr h =>
          obtain ⟨m', hm', hi⟩ := h
          exact Or.inr ⟨m', List.mem_cons_of_mem _ hm', hi⟩
      · intro h
        cases h with
        | inl hy => exact Or.inl (mem_addSeen.mpr (Or.inl hy))
        | inr h =>
          obtain ⟨m', hm', j, hj, hx⟩ := h
          cases List.mem_cons.mp hm' with
          | inl hm' =>
            subst hm'
            rw [hm] at hj
            cases hj
            exact Or.inl (mem_addSeen.mpr (Or.inr hx))
          | inr hm' => exact Or.inr ⟨m', hm', j, hj, hx⟩

/-- Characterization of the seen-set rebuilt by `fetchMessages`. -/
theorem mem_buildSeen (rows : List MessageRow) (x : String) :
    x ∈ buildSeen rows ↔ ∃ m ∈ rows, ∃ i, m.id = some i ∧ x = Nat.repr i := by
  have h := mem_seenStep_foldl rows [] x
  simpa [buildSeen] using h

/-! ### Claim theorems -/

/-- Claim C1.  The claim states that for every interleaving of the local
post-write append and the remote INSERT notification with the same row id the
messages sequence holds that id exactly once, the local append adding the row
only if its id is not already seen.  The code violates this: the local append
is unconditional, so when the remote notification arrives first the id ends up
in the sequence twice.  This theorem evaluates both interleavings of the two
callbacks at the failing input `msgFix1` (id 1): the local-first order yields
the id once, the remote-first order yields it twice. -/
theorem C1_remote_first_duplicates :
    countId (chatInsertCallback
      (handleSendMessageApply ⟨[], []⟩ false (some msgFix1)) (some msgFix1)).messages 1 = 1 ∧
    countId (handleSendMessageApply
      (chatInsertCallback ⟨[], []⟩ (some msgFix1)) false (some msgFix1)).messages 1 = 2 := by
  decide

/-- Claim C6: a failed initial fetch (`error` set in the response) leaves the
prior local state untouched, for the messages fetch (sequence and seen-set)
and for the matches fetch alike; the embedded operation is a single state
transition with no retry. -/
theorem C6_fetch_error_leaves_state_untouched :
    (∀ (s : ChatState) (d : Option (List MessageRow)), fetchMessagesRun s true d = s) ∧
    (∀ (l : List MatchRow) (d : Option (List MatchRow)), fetchMatchesRun l true d = l) := by
  constructor
  · intro s d
    cases d <;> rfl
  · intro l d
    cases d <;> rfl

/-- Claim C5: a match status update is issued (by `respondMatch`, the only
path the UI offers) exactly when the acting user is the match's `user_b` and
the match is `pending`, and the issued status is `confirmed` or `cancelled`;
a match whose status is `confirmed` or `cancelled` is never mutated again. -/
theorem C5_respond_only_receiver_pending :
    (∀ (me : Option String) (m : MatchRow) (k : RespondKind) (i : Nat) (st : String),
        respondMatch me m k = some (i, st) →
        (∃ u, me = some u ∧ m.user_b = some u) ∧ m.status = some "pending" ∧
          i = m.id ∧ (st = "confirmed" ∨ st = "cancelled")) ∧
    (∀ (me : Option String) (m : MatchRow) (k : RespondKind),
        m.status = some "confirmed" ∨ m.status = some "cancelled" →
        respondMatch me m k = none) := by
  constructor
  · intro me m k i st h
    unfold respondMatch at h
    by_cases hc : canRespond me m = true
    · rw [if_pos hc] at h
      injection h with hpair
      have hi : i = m.id := (congrArg Prod.fst hpair).symm
      have hstv : st = k.toStatus := (congrArg Prod.snd hpair).symm
      unfold canRespond at hc
      rw [Bool.and_eq_true] at hc
      obtain ⟨hrecv, hpend⟩ := hc
      refine ⟨?_, beq_iff_eq.mp hpend, hi, ?_⟩
      · cases me with
        | none => simp [isReceiver] at hrecv
        | some u =>
          unfold isReceiver at hrecv
          exact ⟨u, rfl, beq_iff_eq.mp hrecv⟩
      · rw [hstv]
        cases k with
        | confirmed => exact Or.inl rfl
        | cancelled => exact Or.inr rfl
    · rw [if_neg hc] at h
      cases h
  · intro me m k h
    have hst : (m.status == some "pending") = false := by
      cases h with
      | inl h => rw [h]; decide
      | inr h => rw [h]; decide
    simp [respondMatch, canRespond, hst]

/-- Witness for C5: the receiver `"v"` of the pending `matchFix1` issues the
accept transition, and both hypotheses of the second conjunct hold at the
confirmed `matchFix2`. -/
theorem C5_witness :
    ((∃ u, (some "v" : Option String) = some u ∧ matchFix1.user_b = some u) ∧
      matchFix1.status = some "pending" ∧ (1 : Nat) = matchFix1.id ∧
      ("confirmed" = "confirmed" ∨ "confirmed" = "cancelled")) ∧
    respondMatch (some "u") matchFix2 .confirmed = none :=
  ⟨C5_respond_only_receiver_pending.1 (some "v") matchFix1 .confirmed 1 "confirmed" (by decide),
   C5_respond_only_receiver_pending.2 (some "u") matchFix2 .confirmed (Or.inl (by decide))⟩

/-- Claim C10: `hasOverlap` is commutative in its two interval arguments for
every parse function and all inputs, and for genuine (non-degenerate)
intervals it returns `true` exactly when the half-open intervals
`[aStart, aEnd)` and `[bStart, bEnd)` of parsed times intersect. -/
theorem C10_hasOverlap_comm_and_intersect :
    (∀ (getTime : String → Int) (a1 a2 b1 b2 : String),
        hasOverlap getTime a1 a2 b1 b2 = hasOverlap getTime b1 b2 a1 a2) ∧
    (∀ (getTime : String → Int) (a1 a2 b1 b2 : String),
        getTime a1 < getTime a2 → getTime b1 < getTime b2 →
        (hasOverlap getTime a1 a2 b1 b2 = true ↔
          ∃ t : Int, (getTime a1 ≤ t ∧ t < getTime a2) ∧
            (getTime b1 ≤ t ∧ t < getTime b2))) := by
  constructor
  · intro getTime a1 a2 b1 b2
    simp [hasOverlap, Bool.and_comm]
  · intro getTime a1 a2 b1 b2 ha hb
    simp only [hasOverlap, Bool.and_eq_true, decide_eq_true_eq]
    constructor
    · intro h
      obtain ⟨h1, h2⟩ := h
      refine ⟨max (getTime a1) (getTime b1), ⟨le_max_left _ _, ?_⟩,
        ⟨le_max_right _ _, ?_⟩⟩
      · exact max_lt ha h2
      · exact max_lt h1 hb
    · intro h
      obtain ⟨t, ⟨ha1, ha2⟩, hb1, hb2⟩ := h
      exact ⟨lt_of_le_of_lt ha1 hb2, lt_of_le_of_lt hb1 ha2⟩

/-- Witness for C10: with lengths as parse function, `[1, 3)` and `[0, 2)`
are non-degenerate and `hasOverlap` reports their intersection. -/
theorem C10_witness :
    hasOverlap (fun s => (s.length : Int)) "x" "xxx" "" "xx" = true :=
  (C10_hasOverlap_comm_and_intersect.2 (fun s => (s.length : Int)) "x" "xxx" "" "xx"
      (by decide) (by decide)).mpr ⟨1, by constructor <;> constructor <;> decide⟩

/-- Claim C3 counterexample.  The claim states that a pushed notification
whose row lacks an id is dropped silently, leaving the visible sequence
unchanged.  On the empty chat state, the realtime INSERT callback applied to
the id-less row `msgFixNoId` in fact appends the row to the sequence (while
indeed leaving the seen-set unchanged). -/
theorem C3_missing_id_appended_counterexample :
    (chatInsertCallback ⟨[], []⟩ (some msgFixNoId)).messages = [msgFixNoId] ∧
    (chatInsertCallback ⟨[], []⟩ (some msgFixNoId)).messages ≠ ([] : List MessageRow) ∧
    (chatInsertCallback ⟨[], []⟩ (some msgFixNoId)).seen = ([] : List String) := by
  decide

/-- Claim C3 as amended: a notification whose payload carries no row
(`payload.new` null) is dropped silently, leaving sequence and seen-set
unchanged; a notification whose row lacks an id is not dropped — the row is
appended to the visible sequence, with only the seen-set left unchanged. -/
theorem C3_amended_null_dropped_missing_id_appended :
    (∀ s : ChatState, chatInsertCallback s none = s) ∧
    (∀ (s : ChatState) (row : MessageRow), row.id = none →
        chatInsertCallback s (some row) = { s with messages := s.messages ++ [row] }) := by
  constructor
  · intro s
    rfl
  · intro s row h
    simp [chatInsertCallback, h]

/-- Witness for C3's amended theorem: appending the concrete id-less row to
the empty chat state. -/
theorem C3_amended_witness :
    chatInsertCallback ⟨[], []⟩ (some msgFixNoId) =
      { (⟨[], []⟩ : ChatState) with
        messages := (⟨[], []⟩ : ChatState).messages ++ [msgFixNoId] } :=
  C3_amended_null_dropped_missing_id_appended.2 ⟨[], []⟩ msgFixNoId rfl

/-- Claim C4: after a successful initial messages fetch of a snapshot that the
server delivered sorted ascending by `sent_at`, the visible sequence equals
the snapshot sorted ascending by the sort key, and the seen-set holds exactly
the (stringified) ids present in the snapshot. -/
theorem C4_loadInitial_sets_sequence_and_seen :
    ∀ (s : ChatState) (rows : List MessageRow),
      List.Sorted msgLe rows →
      (fetchMessagesRun s false (some rows)).messages = List.insertionSort msgLe rows ∧
      (∀ x : String,
        x ∈ (fetchMessagesRun s false (some rows)).seen ↔
          ∃ m ∈ rows, ∃ i, m.id = some i ∧ x = Nat.repr i) := by
  intro s rows hsorted
  constructor
  · show rows = List.insertionSort msgLe rows
    exact (hsorted.insertionSort_eq).symm
  · intro x
    show x ∈ buildSeen rows ↔ _
    exact mem_buildSeen rows x

/-- Witness for C4 at the two-element sorted snapshot `[msgFixB, msgFixA]`
(keys 10 and 20). -/
theorem C4_witness :
    (fetchMessagesRun ⟨[], []⟩ false (some [msgFixB, msgFixA])).messages =
        List.insertionSort msgLe [msgFixB, msgFixA] ∧
      (∀ x : String,
        x ∈ (fetchMessagesRun ⟨[], []⟩ false (some [msgFixB, msgFixA])).seen ↔
          ∃ m ∈ [msgFixB, msgFixA], ∃ i, m.id = some i ∧ x = Nat.repr i) :=
  C4_loadInitial_sets_sequence_and_seen ⟨[], []⟩ [msgFixB, msgFixA] (by decide)

/-- Claim C7: a remote DELETE notification carrying a row with id `k` removes
exactly the entities whose id equals `k`, leaving every other entity unchanged
and in its prior relative order.  The hypotheses are the reachable-state side
conditions: the mirror is sorted by `start_at`, every mirrored row involves
the current user (claim C8's invariant), and a mirrored row sharing the
deleted row's primary key is that database row. -/
theorem C7_delete_removes_exactly_matching_id :
    ∀ (uid : String) (prev : List MatchRow) (row : MatchRow),
      List.Sorted matchLe prev →
      (∀ m ∈ prev, involvesB uid m = true) →
      (∀ m ∈ prev, m.id = row.id → m = row) →
      matchesRealtime uid ⟨.DELETE, none, some row⟩ prev =
        prev.filter (fun m => m.id != row.id) := by
  intro uid prev row hsort hinv hkey
  show (if involvesB uid row then
      sortByStart (prev.filter (fun m => m.id != row.id)) else prev) = _
  by_cases hrow : involvesB uid row = true
  · rw [if_pos hrow]
    exact ((hsort.filter _).insertionSort_eq :)
  · rw [if_neg hrow]
    symm
    rw [List.filter_eq_self]
    intro m hm
    rw [bne_iff_ne]
    intro heq
    exact hrow ((hkey m hm heq) ▸ hinv m hm)

/-- Witness for C7: deleting `matchFix1` from the singleton mirror of user
`"u"` empties it. -/
theorem C7_witness :
    matchesRealtime "u" ⟨.DELETE, none, some matchFix1⟩ [matchFix1] =
      [matchFix1].filter (fun m => m.id != matchFix1.id) :=
  C7_delete_removes_exactly_matching_id "u" [matchFix1] matchFix1
    (by decide) (by decide) (by decide)

/-- Claim C8: every row in the local matches mirror involves the signed-in
user.  The initial fetch only requests such rows; the realtime handler
preserves the invariant; and an event whose row involves neither side is
discarded before the list is mutated. -/
theorem C8_matches_involve_current_user :
    (∀ (uid : String) (db : List MatchRow) (m : MatchRow),
        m ∈ fetchMatchesQuery uid db → involvesB uid m = true) ∧
    (∀ (uid : String) (p : MatchPayload) (prev : List MatchRow),
        (∀ m ∈ prev, involvesB uid m = true) →
        ∀ m ∈ matchesRealtime uid p prev, involvesB uid m = true) ∧
    (∀ (uid : String) (p : MatchPayload) (prev : List MatchRow) (row : MatchRow),
        p.new.orElse (fun _ => p.old) = some row → involvesB uid row = false →
        matchesRealtime uid p prev = prev) := by
  refine ⟨?_, ?_, ?_⟩
  · intro uid db m hm
    have hm' : m ∈ db.filter (fun m => involvesB uid m) := by
      simpa [fetchMatchesQuery, sortByStart] using hm
    exact (List.mem_filter.mp hm').2
  · intro uid p prev hprev m hm
    obtain ⟨ev, pnew, pold⟩ := p
    cases pnew with
    | none =>
      cases pold with
      | none => exact hprev m hm
      | some rowOld =>
        revert hm
        show m ∈ (if involvesB uid rowOld then _ else prev) → _
        by_cases hrow : involvesB uid rowOld = true
        · rw [if_pos hrow]
          intro hm
          cases ev with
          | INSERT =>
            have hm2 : m ∈ prev := by simpa [sortByStart] using hm
            exact hprev m hm2
          | UPDATE =>
            have hm2 : m ∈ prev := by simpa [sortByStart] using hm
            exact hprev m hm2
          | DELETE =>
            have hm2 : m ∈ prev.filter (fun x => x.id != rowOld.id) := by
              simpa [sortByStart] using hm
            exact hprev m (List.mem_filter.mp hm2).1
        · rw [if_neg hrow]
          exact hprev m
    | some rowNew =>
      revert hm
      show m ∈ (if involvesB uid rowNew then _ else prev) → _
      by_cases hrow : involvesB uid rowNew = true
      · rw [if_pos hrow]
        intro hm
        cases ev with
        | INSERT =>
          by_cases hdup : prev.any (fun x => x.id == rowNew.id) = true
          · have hm2 : m ∈ prev := by simpa [sortByStart, hdup] using hm
            exact hprev m hm2
          · have hm2 : m ∈ prev ++ [rowNew] := by
              simpa [sortByStart, hdup] using hm
            cases List.mem_append.mp hm2 with
            | inl hm3 => exact hprev m hm3
            | inr hm3 =>
              rw [List.mem_singleton] at hm3
              exact hm3 ▸ hrow
        | UPDATE =>
          have hm2 : m ∈ prev.map (fun x => if x.id == rowNew.id then rowNew else x) := by
            simpa [sortByStart] using hm
          obtain ⟨a, ha, hfa⟩ := List.mem_map.mp hm2
          by_cases hid : (a.id == rowNew.id) = true
          · rw [if_pos hid] at hfa
            exact hfa ▸ hrow
          · rw [if_neg hid] at hfa
            exact hfa ▸ hprev a ha
        | DELETE =>
          cases pold with
          | none =>
            have hm2 : m ∈ prev := by simpa [sortByStart] using hm
            exact hprev m hm2
          | some rowOld =>
            have hm2 : m ∈ prev.filter (fun x => x.id != rowOld.id) := by
              simpa [sortByStart] using hm
            exact hprev m (List.mem_filter.mp hm2).1
      · rw [if_neg hrow]
        exact hprev m
  · intro uid p prev row h hfalse
    obtain ⟨ev, pnew, pold⟩ := p
    cases pnew with
    | some rowNew =>
      have hr : rowNew = row := by simpa using h
      subst hr
      show (if involvesB uid rowNew then _ else prev) = prev
      rw [if_neg]
      rw [hfalse]
      intro hc
      cases hc
    | none =>
      cases pold with
      | none => rfl
      | some rowOld =>
        have hr : rowOld = row := by simpa using h
        subst hr
        show (if involvesB uid rowOld then _ else prev) = prev
        rw [if_neg]
        rw [hfalse]
        intro hc
        cases hc

/-- Witness for C8: a remote INSERT of `matchFix2` (involving `"u"`) into the
mirror `[matchFix1]` keeps every row involving `"u"`. -/
theorem C8_witness :
    ∀ m ∈ matchesRealtime "u" ⟨.INSERT, some matchFix2, none⟩ [matchFix1],
      involvesB "u" m = true :=
  C8_matches_involve_current_user.2.1 "u" ⟨.INSERT, some matchFix2, none⟩ [matchFix1]
    (by decide)

/-- Claim C2 counterexample.  The claim states that after every synchronizer
operation the visible sequence is sorted ascending by the sort key.  For
messages the code only ever appends: starting from a fetched snapshot holding
the key-20 row `msgFixA`, the remote INSERT callback for the key-10 row
`msgFixB` leaves the messages sequence unsorted. -/
theorem C2_messages_not_resorted_counterexample :
    List.Sorted msgLe (fetchMessagesRun ⟨[], []⟩ false (some [msgFixA])).messages ∧
    ¬ List.Sorted msgLe
        (chatInsertCallback (fetchMessagesRun ⟨[], []⟩ false (some [msgFixA]))
          (some msgFixB)).messages := by
  decide

/-- Claim C2 as amended: every matches operation (realtime handler, local
proposal append, initial fetch) leaves the matches sequence sorted ascending
by `start_at`; the messages sequence is sorted after the initial fetch, and
the local append and the remote INSERT callback preserve sortedness exactly
when the appended row's `sent_at` key is at least every key already present —
in particular, for the two interleavings of the same logical write, whose
keys are equal. -/
theorem C2_amended_sortedness :
    (∀ (uid : String) (p : MatchPayload) (prev : List MatchRow),
        List.Sorted matchLe prev → List.Sorted matchLe (matchesRealtime uid p prev)) ∧
    (∀ (prev : List MatchRow) (e : Bool) (d : Option MatchRow),
        List.Sorted matchLe prev → List.Sorted matchLe (proposeApply prev e d)) ∧
    (∀ (uid : String) (db : List MatchRow),
        List.Sorted matchLe (fetchMatchesQuery uid db)) ∧
    (∀ (s : List MatchRow) (e : Bool) (d : Option (List MatchRow)),
        List.Sorted matchLe s → (∀ rows, d = some rows → List.Sorted matchLe rows) →
        List.Sorted matchLe (fetchMatchesRun s e d)) ∧
    (∀ (db : List MessageRow) (mid : Nat),
        List.Sorted msgLe (fetchMessagesQuery db mid)) ∧
    (∀ (s : ChatState) (e : Bool) (d : Option (List MessageRow)),
        List.Sorted msgLe s.messages → (∀ rows, d = some rows → List.Sorted msgLe rows) →
        List.Sorted msgLe (fetchMessagesRun s e d).messages) ∧
    (∀ (s : ChatState) (row : MessageRow),
        List.Sorted msgLe s.messages → (∀ m ∈ s.messages, msgKey m ≤ msgKey row) →
        List.Sorted msgLe (chatInsertCallback s (some row)).messages ∧
        List.Sorted msgLe (handleSendMessageApply s false (some row)).messages) := by
  refine ⟨?_, ?_, ?_, ?_, ?_, ?_, ?_⟩
  · intro uid p prev hs
    obtain ⟨ev, pnew, pold⟩ := p
    cases pnew with
    | none =>
      cases pold with
      | none => exact hs
      | some rowOld =>
        show List.Sorted matchLe (if involvesB uid rowOld then _ else prev)
        by_cases hrow : involvesB uid rowOld = true
        · rw [if_pos hrow]
          exact List.sorted_insertionSort matchLe _
        · rw [if_neg hrow]
          exact hs
    | some rowNew =>
      show List.Sorted matchLe (if involvesB uid rowNew then _ else prev)
      by_cases hrow : involvesB uid rowNew = true
      · rw [if_pos hrow]
        exact List.sorted_insertionSort matchLe _
      · rw [if_neg hrow]
        exact hs
  · intro prev e d hs
    cases e <;> cases d
    · exact hs
    · exact List.sorted_insertionSort matchLe _
    · exact hs
    · exact hs
  · intro uid db
    exact List.sorted_insertionSort matchLe _
  · intro s e d hs hd
    cases e <;> cases d
    · exact hs
    · exact hd _ rfl
    · exact hs
    · exact hs
  · intro db mid
    exact List.sorted_insertionSort msgLe _
  · intro s e d hs hd
    cases e <;> cases d
    · exact hs
    · exact hd _ rfl
    · exact hs
    · exact hs
  · intro s row hs hkeys
    constructor
    · obtain ⟨rid, rmid, rsid, rbody, rsent⟩ := row
      cases rid with
      | none => exact sorted_append_one hs hkeys
      | some i =>
        show List.Sorted msgLe
          (if Nat.repr i ∈ s.seen then s
            else { messages := s.messages ++ [⟨some i, rmid, rsid, rbody, rsent⟩],
                   seen := addSeen s.seen (Nat.repr i) }).messages
        by_cases hmem : Nat.repr i ∈ s.seen
        · rw [if_pos hmem]
          exact hs
        · rw [if_neg hmem]
          exact sorted_append_one hs hkeys
    · exact sorted_append_one hs hkeys

/-- Witness for C2's amended theorem: a remote INSERT into the sorted matches
mirror and both same-or-later-key message appends, at concrete states. -/
theorem C2_amended_witness :
    List.Sorted matchLe (matchesRealtime "u" ⟨.INSERT, some matchFix2, none⟩ [matchFix1]) ∧
    (List.Sorted msgLe (chatInsertCallback ⟨[msgFixB], []⟩ (some msgFixA)).messages ∧
      List.Sorted msgLe (handleSendMessageApply ⟨[msgFixB], []⟩ false (some msgFixA)).messages) :=
  ⟨C2_amended_sortedness.1 "u" ⟨.INSERT, some matchFix2, none⟩ [matchFix1] (by decide),
   C2_amended_sortedness.2.2.2.2.2.2 ⟨[msgFixB], []⟩ msgFixA (by decide) (by decide)⟩

/-- A loop iteration of `fetchNextSlotsForUsers` leaves every key other than
the row's own (non-empty) `user_id` unchanged. -/
theorem slotMapStep_ne (m : NextSlotMap) (r : SlotQueryRow) (id : String)
    (h : ¬ r.user_id = some id) : slotMapStep m r id = m id := by
  unfold slotMapStep
  cases hru : r.user_id with
  | none => rfl
  | some uid =>
    have hne : ¬ id = uid := fun he => h (by rw [hru, he])
    dsimp only
    by_cases he : uid = ""
    · rw [if_pos he]
    · rw [if_neg he]
      cases hmu : m uid with
      | none =>
        dsimp only
        rw [if_neg hne]
      | some v =>
        cases v with
        | none =>
          dsimp only
          rw [if_neg hne]
        | some w => rfl

/-- Once a key is bound to a slot, a loop iteration never rebinds it. -/
theorem slotMapStep_set (m : NextSlotMap) (r : SlotQueryRow) (id : String)
    (s : PublicSlot) (h : m id = some (some s)) : slotMapStep m r id = some (some s) := by
  by_cases hru : r.user_id = some id
  · unfold slotMapStep
    rw [hru]
    dsimp only
    by_cases he : id = ""
    · rw [if_pos he]
      exact h
    · rw [if_neg he, h]
      exact h
  · rw [slotMapStep_ne m r id hru]
    exact h

/-- A key bound to a slot stays bound to it over the whole loop. -/
theorem slotFold_set (rows : List SlotQueryRow) (m : NextSlotMap) (id : String)
    (s : PublicSlot) (h : m id = some (some s)) :
    rows.foldl slotMapStep m id = some (some s) := by
  induction rows generalizing m with
  | nil => exact h
  | cons r t ih =>
    rw [List.foldl_cons]
    exact ih _ (slotMapStep_set m r id s h)

/-- A loop iteration on a row with the (non-empty) key's own `user_id` binds
that key when it is still unset (`map[uid] == null`). -/
theorem slotMapStep_eq_unset (m : NextSlotMap) (r : SlotQueryRow) (id : String)
    (hru : r.user_id = some id) (hne : ¬ id = "")
    (hm : m id = none ∨ m id = some none) :
    slotMapStep m r id = some (some (toPublicSlot id r)) := by
  unfold slotMapStep
  rw [hru]
  dsimp only
  rw [if_neg hne]
  cases hm with
  | inl h =>
    rw [h]
    dsimp only
    rw [if_pos rfl]
  | inr h =>
    rw [h]
    dsimp only
    rw [if_pos rfl]

/-- Over the whole loop, an initially unset (non-empty) key ends bound to the
first row carrying it, and stays unset when no row carries it. -/
theorem slotFold_unset (rows : List SlotQueryRow) (m : NextSlotMap) (id : String)
    (hne : ¬ id = "") (h : m id = none ∨ m id = some none) :
    rows.foldl slotMapStep m id =
      match rows.find? (fun r => r.user_id == some id) with
      | some r => some (some (toPublicSlot id r))
      | none => m id := by
  induction rows generalizing m with
  | nil => rfl
  | cons r t ih =>
    rw [List.foldl_cons, List.find?_cons]
    by_cases hru : r.user_id = some id
    · have hb : (r.user_id == some id) = true := beq_iff_eq.mpr hru
      have hset := slotMapStep_eq_unset m r id hru hne h
      rw [slotFold_set t _ id _ hset]
      rw [hb]
    · have hb : (r.user_id == some id) = false := beq_eq_false_iff_ne.mpr hru
      have hstep := slotMapStep_ne m r id hru
      rw [ih _ (by rw [hstep]; exact h)]
      rw [hb]
      cases hf : t.find? (fun x => x.user_id == some id) with
      | some x => rfl
      | none => exact hstep

/-- In a list sorted ascending by `start_at`, the first row satisfying a
predicate has the minimal `start_at` among all satisfying rows. -/
theorem find?_min_sorted :
    ∀ (rows : List SlotQueryRow), List.Sorted slotLe rows →
      ∀ (p : SlotQueryRow → Bool) (r₀ : SlotQueryRow), rows.find? p = some r₀ →
        ∀ r ∈ rows, p r = true → r₀.start_at ≤ r.start_at := by
  intro rows
  induction rows with
  | nil =>
    intro _ p r₀ h
    cases h
  | cons a t ih =>
    intro hs p r₀ h r hr hpr
    rw [List.find?_cons] at h
    by_cases hpa : p a = true
    · rw [hpa] at h
      injection h with h'
      subst h'
      cases List.mem_cons.mp hr with
      | inl he =>
        rw [he]
      | inr ht => exact List.rel_of_sorted_cons hs r ht
    · rw [Bool.eq_false_iff.mpr hpa] at h
      cases List.mem_cons.mp hr with
      | inl he =>
        rw [he] at hpr
        exact absurd hpr hpa
      | inr ht => exact ih hs.of_cons p r₀ h r ht hpr

/-- Claim C9 counterexample.  The claim states that each input user id is
bound to that user's earliest fetched slot, rows with a null `user_id` being
the ones skipped.  The loop also skips the empty-string `user_id` (a falsy
value in the source), so the input id `""` stays bound to null even though a
fetched sorted slot list contains a slot for it. -/
theorem C9_empty_uid_counterexample :
    slotFixEmpty.user_id = some "" ∧
    List.Sorted slotLe [slotFixEmpty] ∧
    fetchNextSlotsForUsers [""] [slotFixEmpty] "" = some none := by
  decide

/-- Claim C9 as amended: for a fetched slot list sorted ascending by
`start_at`, each input user id other than the empty string is bound to the
first fetched slot carrying it — which has the minimal `start_at` among that
user's fetched slots — or to null when that user has no fetched slot; rows
whose `user_id` is null or empty are skipped and contribute no binding. -/
theorem C9_amended_next_slot_binding :
    ∀ (userIds : List String) (rows : List SlotQueryRow) (id : String),
      List.Sorted slotLe rows → id ∈ userIds → ¬ id = "" →
      fetchNextSlotsForUsers userIds rows id =
        some ((rows.find? (fun r => r.user_id == some id)).map (toPublicSlot id)) ∧
      (∀ r₀, rows.find? (fun r => r.user_id == some id) = some r₀ →
        ∀ r ∈ rows, r.user_id = some id → r₀.start_at ≤ r.start_at) := by
  intro userIds rows id hsort hmem hne
  constructor
  · have hinit : initSlotMap userIds id = some none := by
      simp [initSlotMap, hmem]
    have h := slotFold_unset rows (initSlotMap userIds) id hne (Or.inr hinit)
    show rows.foldl slotMapStep (initSlotMap userIds) id = _
    rw [h]
    cases hf : rows.find? (fun r => r.user_id == some id) with
    | some r => rfl
    | none =>
      rw [hinit]
      rfl
  · intro r₀ hf r hr hru
    exact find?_min_sorted rows hsort _ r₀ hf r hr (beq_iff_eq.mpr hru)

/-- Witness for C9's amended theorem: user `"a"` with two sorted slots is
bound to the earlier one. -/
theorem C9_amended_witness :
    fetchNextSlotsForUsers ["a"] [slotFixA, slotFixB] "a" =
        some (([slotFixA, slotFixB].find? (fun r => r.user_id == some "a")).map
          (toPublicSlot "a")) ∧
      (∀ r₀, [slotFixA, slotFixB].find? (fun r => r.user_id == some "a") = some r₀ →
        ∀ r ∈ [slotFixA, slotFixB], r.user_id = some "a" → r₀.start_at ≤ r.start_at) :=
  C9_amended_next_slot_binding ["a"] [slotFixA, slotFixB] "a"
    (by decide) (by decide) (by decide)
